import Mathlib

/-!
Shallow embedding of the bluedit-tutorial-server GraphQL resolvers
(UserResolver in its MikroORM and TypeORM versions, and PostResolver),
together with proofs about the vote ledger, the paginated feed query and
the account resolvers.

Database tables are embedded as Lean lists of rows; the redis cache is a
list of key/value pairs; each resolver becomes a pure function from the
relevant state to a result and a successor state.  External collaborators
(password hashing, uuid generation, the insert outcome of the database)
are passed in as explicit parameters.
-/

namespace Bluedit

/-- Row of the `user` table (`entities/User`): id, unique username, unique
email, password hash.  Timestamp columns are omitted; no claim mentions
them. -/
structure UserRow where
  id : Nat
  username : String
  email : String
  password : String
  deriving Repr, DecidableEq

/-- Row of the `post` table (`entities/Post`): id, title, text, denormalized
`points`, `creatorId`, and the `createdAt` timestamp (modelled as a Nat,
matching the millisecond timestamps the cursor is parsed from). -/
structure PostRow where
  id : Nat
  title : String
  text : String
  points : Int
  creatorId : Nat
  createdAt : Nat
  deriving Repr, DecidableEq

/-- Row of the `upvote` table (`entities/Upvote`): composite key
`(userId, postId)` and the signed vote `value`. -/
structure UpvoteRow where
  userId : Nat
  postId : Nat
  value : Int
  deriving Repr, DecidableEq

/-- The database state the `vote` mutation touches: the `post` table and the
`upvote` table. -/
structure VoteState where
  posts : List PostRow
  upvotes : List UpvoteRow
  deriving Repr, DecidableEq

/-- `value !== -1 ? 1 : -1` — the normalization at the top of
`PostResolver.vote`. -/
def realValueOf (value : Int) : Int :=
  if value != -1 then 1 else -1

/-- The `where` clause `{ userId: userId, postId: postId }` on the upvote
table. -/
def keyMatches (u : UpvoteRow) (uid pid : Nat) : Bool :=
  u.userId == uid && u.postId == pid

theorem keyMatches_iff (u : UpvoteRow) (uid pid : Nat) :
    keyMatches u uid pid = true ↔ u.userId = uid ∧ u.postId = pid := by
  simp [keyMatches]

/-- `Upvote.findOne({ where: { userId, postId } })`. -/
def findUpvote (upvotes : List UpvoteRow) (uid pid : Nat) : Option UpvoteRow :=
  upvotes.find? fun v => keyMatches v uid pid

/-- `update post set points = points + $1 where id = $2`. -/
def bumpPoints (posts : List PostRow) (pid : Nat) (delta : Int) : List PostRow :=
  posts.map fun p => if p.id == pid then { p with points := p.points + delta } else p

/-- `update upvote set value = $1 where "postId" = $2 and "userId" = $3`. -/
def setUpvoteValue (upvotes : List UpvoteRow) (uid pid : Nat) (v : Int) : List UpvoteRow :=
  upvotes.map fun u => if keyMatches u uid pid then { u with value := v } else u

/-- `PostResolver.vote(postId, value)` for the authenticated user `userId`
(the `isAuth` middleware rejects unauthenticated callers before this body
runs).  The three branches are: flip an existing opposite vote (adjusting
points by `2 * realValue`), insert a fresh vote (adjusting points by
`realValue`), or do nothing for a repeated identical vote.  The mutation
always resolves `true`. -/
def vote (st : VoteState) (userId postId : Nat) (value : Int) : VoteState × Bool :=
  let realValue := realValueOf value
  match findUpvote st.upvotes userId postId with
  | some upvote =>
    if upvote.value != realValue then
      ({ posts := bumpPoints st.posts postId (2 * realValue),
         upvotes := setUpvoteValue st.upvotes userId postId realValue }, true)
    else
      (st, true)
  | none =>
      ({ posts := bumpPoints st.posts postId realValue,
         upvotes := st.upvotes ++ [{ userId := userId, postId := postId, value := realValue }] },
       true)

/-- Sum of the `value` column over all upvote rows referencing post `pid`. -/
def voteSum (upvotes : List UpvoteRow) (pid : Nat) : Int :=
  ((upvotes.filter fun v => v.postId == pid).map fun v => v.value).sum

/-- All vote values in the table are normalized (every writer inserts
`realValueOf`, which is `1` or `-1`). -/
def normalizedValues (upvotes : List UpvoteRow) : Prop :=
  ∀ v ∈ upvotes, v.value = 1 ∨ v.value = -1

/-- At most one vote row per `(userId, postId)` pair — the composite primary
key of the `upvote` table. -/
def uniqueKeys (upvotes : List UpvoteRow) : Prop :=
  upvotes.Pairwise fun a b => ¬(a.userId = b.userId ∧ a.postId = b.postId)

/-- The Post/Vote invariant of the spec: every post's `points` equals the sum
of `value` over the upvote rows referencing it. -/
def pointsInv (st : VoteState) : Prop :=
  ∀ p ∈ st.posts, p.points = voteSum st.upvotes p.id

instance (l : List UpvoteRow) : Decidable (normalizedValues l) := by
  unfold normalizedValues; infer_instance

instance (l : List UpvoteRow) : Decidable (uniqueKeys l) := by
  unfold uniqueKeys; infer_instance

instance (st : VoteState) : Decidable (pointsInv st) := by
  unfold pointsInv; infer_instance

theorem voteSum_cons (v : UpvoteRow) (l : List UpvoteRow) (pid : Nat) :
    voteSum (v :: l) pid = (if v.postId = pid then v.value else 0) + voteSum l pid := by
  by_cases h : v.postId = pid <;>
    simp [voteSum, List.filter_cons, h]

theorem voteSum_append_single (l : List UpvoteRow) (r : UpvoteRow) (pid : Nat) :
    voteSum (l ++ [r]) pid = voteSum l pid + (if r.postId = pid then r.value else 0) := by
  by_cases h : r.postId = pid <;>
    simp [voteSum, List.filter_append, List.filter_cons, h]

theorem setUpvoteValue_of_no_match (l : List UpvoteRow) (uid pid : Nat) (rv : Int)
    (h : ∀ v ∈ l, ¬(v.userId = uid ∧ v.postId = pid)) :
    setUpvoteValue l uid pid rv = l := by
  induction l with
  | nil => rfl
  | cons a l ih =>
    have ha : ¬(a.userId = uid ∧ a.postId = pid) := h a (List.mem_cons_self a l)
    have hcond : keyMatches a uid pid = false := by
      rw [← Bool.not_eq_true, keyMatches_iff]
      exact ha
    have ih' := ih fun v hv => h v (List.mem_cons_of_mem a hv)
    simp only [setUpvoteValue, List.map_cons, hcond] at ih' ⊢
    simp [ih']

theorem voteSum_setUpvoteValue (l : List UpvoteRow) (uid pid : Nat) (rv : Int)
    (uv : UpvoteRow) (hfind : findUpvote l uid pid = some uv) (huniq : uniqueKeys l)
    (pid' : Nat) :
    voteSum (setUpvoteValue l uid pid rv) pid'
      = voteSum l pid' + (if pid = pid' then rv - uv.value else 0) := by
  induction l with
  | nil => simp [findUpvote] at hfind
  | cons a l ih =>
    rw [uniqueKeys, List.pairwise_cons] at huniq
    obtain ⟨ha, huniq'⟩ := huniq
    cases hcond : keyMatches a uid pid with
    | true =>
      have hkey : a.userId = uid ∧ a.postId = pid := (keyMatches_iff a uid pid).mp hcond
      have huv : uv = a := by
        simp only [findUpvote, List.find?_cons, hcond] at hfind
        exact (Option.some.inj hfind).symm
      subst huv
      have hnomatch : ∀ v ∈ l, ¬(v.userId = uid ∧ v.postId = pid) := by
        intro v hv hc
        exact ha v hv ⟨hkey.1.trans hc.1.symm, hkey.2.trans hc.2.symm⟩
      have hrest : setUpvoteValue l uid pid rv = l :=
        setUpvoteValue_of_no_match l uid pid rv hnomatch
      have hhead : setUpvoteValue (uv :: l) uid pid rv = { uv with value := rv } :: l := by
        simp only [setUpvoteValue, List.map_cons, hcond, if_true]
        rw [setUpvoteValue] at hrest
        simp [hrest]
      rw [hhead, voteSum_cons, voteSum_cons]
      by_cases hp : pid = pid'
      · have hpp : uv.postId = pid' := hkey.2.trans hp
        simp only [hpp, if_true, hp]
        omega
      · have hpp : uv.postId ≠ pid' := fun hc => hp (hkey.2.symm.trans hc)
        simp [hpp, hp]
    | false =>
      have hfind' : findUpvote l uid pid = some uv := by
        simp only [findUpvote, List.find?_cons, hcond] at hfind
        exact hfind
      have hhead : setUpvoteValue (a :: l) uid pid rv = a :: setUpvoteValue l uid pid rv := by
        simp [setUpvoteValue, hcond]
      rw [hhead, voteSum_cons, voteSum_cons, ih hfind' huniq']
      omega

theorem realValueOf_cases (value : Int) : realValueOf value = 1 ∨ realValueOf value = -1 := by
  by_cases h : value = -1 <;> simp [realValueOf, h]

theorem findUpvote_append_self (l : List UpvoteRow) (uid pid : Nat) (rv : Int)
    (h : findUpvote l uid pid = none) :
    findUpvote (l ++ [{ userId := uid, postId := pid, value := rv }]) uid pid
      = some { userId := uid, postId := pid, value := rv } := by
  induction l with
  | nil => simp [findUpvote, List.find?_cons, keyMatches]
  | cons a l ih =>
    cases hcond : keyMatches a uid pid with
    | true => simp [findUpvote, List.find?_cons, hcond] at h
    | false =>
      simp only [findUpvote, List.find?_cons, hcond] at h
      simpa only [findUpvote, List.cons_append, List.find?_cons, hcond] using ih h

theorem findUpvote_setUpvoteValue (l : List UpvoteRow) (uid pid : Nat) (rv : Int) :
    findUpvote (setUpvoteValue l uid pid rv) uid pid
      = (findUpvote l uid pid).map fun u => { u with value := rv } := by
  induction l with
  | nil => rfl
  | cons a l ih =>
    cases hcond : keyMatches a uid pid with
    | true =>
      have hcond' : keyMatches { a with value := rv } uid pid = true := by
        simpa [keyMatches] using hcond
      simp [findUpvote, setUpvoteValue, List.find?_cons, hcond, hcond'] at ih ⊢
    | false =>
      simpa [findUpvote, setUpvoteValue, List.find?_cons, hcond] using ih

/-- C1: after any completed `vote(postId, value)` call by an authenticated
user, on a database state whose vote values are normalized, whose upvote
keys are unique, and which satisfies the Post/Vote invariant, every post's
`points` still equals the sum of `value` over the upvote rows referencing
it: the insert branch adjusts points by the inserted value, the flip branch
by the change in the row's value, and the no-op branch changes nothing. -/
theorem vote_preserves_points_invariant (st : VoteState) (uid pid : Nat) (value : Int)
    (hvals : normalizedValues st.upvotes) (huniq : uniqueKeys st.upvotes)
    (hinv : pointsInv st) : pointsInv (vote st uid pid value).1 := by
  have hrv := realValueOf_cases value
  cases hf : findUpvote st.upvotes uid pid with
  | none =>
    intro p' hp'
    simp only [vote, hf] at hp' ⊢
    obtain ⟨p, hp, hpe⟩ := List.mem_map.mp hp'
    by_cases hid : p.id = pid
    · simp only [hid, beq_self_eq_true, if_true] at hpe
      rw [voteSum_append_single, ← hpe]
      simp [hinv p hp, hid]
    · simp only [beq_iff_eq, hid, if_false] at hpe
      rw [voteSum_append_single, ← hpe]
      simp [Ne.symm hid, hinv p hp]
  | some uv =>
    have hf' : List.find? (fun v => keyMatches v uid pid) st.upvotes = some uv := hf
    have huvmem : uv ∈ st.upvotes := List.mem_of_find?_eq_some hf'
    have hkm := List.find?_some hf'
    have huvkey : uv.userId = uid ∧ uv.postId = pid := (keyMatches_iff uv uid pid).mp hkm
    cases hne : (uv.value != realValueOf value) with
    | false =>
      intro p' hp'
      simp only [vote, hf, hne] at hp' ⊢
      exact hinv p' hp'
    | true =>
      have hneq : uv.value ≠ realValueOf value := by simpa using hne
      intro p' hp'
      simp only [vote, hf, hne, if_true] at hp' ⊢
      obtain ⟨p, hp, hpe⟩ := List.mem_map.mp hp'
      rw [voteSum_setUpvoteValue st.upvotes uid pid (realValueOf value) uv hf huniq]
      by_cases hid : p.id = pid
      · have hppoints : p'.points = p.points + 2 * realValueOf value := by
          rw [← hpe]; simp [hid]
        have hpid : p'.id = pid := by
          rw [← hpe]; simp [hid]
        have h1 := hvals uv huvmem
        have h2 := hinv p hp
        rw [hppoints, hpid, if_pos rfl, h2, hid]
        rcases h1 with h1 | h1 <;> rcases hrv with h3 | h3 <;> omega
      · have hpp : p' = p := by rw [← hpe]; simp [hid]
        rw [hpp, hinv p hp, if_neg fun hc => hid hc.symm]
        simp

/-- A one-post, one-vote state used to instantiate the invariant theorem. -/
def wVoteInv : VoteState :=
  { posts := [{ id := 1, title := "a", text := "b", points := 1, creatorId := 2, createdAt := 3 }],
    upvotes := [{ userId := 2, postId := 1, value := 1 }] }

/-- Witness for C1 at a concrete state: the hypotheses hold and so does the
conclusion after `vote(1, 1)` by user 1. -/
theorem vote_preserves_points_invariant_witness :
    (normalizedValues wVoteInv.upvotes ∧ uniqueKeys wVoteInv.upvotes ∧ pointsInv wVoteInv) ∧
      pointsInv (vote wVoteInv 1 1 1).1 :=
  ⟨⟨by decide, by decide, by decide⟩,
    vote_preserves_points_invariant wVoteInv 1 1 1 (by decide) (by decide) (by decide)⟩

/-- A reachable state in which user 1 has already downvoted post 1. -/
def cexRepeat : VoteState :=
  { posts := [{ id := 1, title := "a", text := "b", points := -1, creatorId := 2, createdAt := 3 }],
    upvotes := [{ userId := 1, postId := 1, value := -1 }] }

/-- C4 counterexample: from a well-formed state satisfying the points
invariant in which user 1 already holds a `-1` vote on post 1, two
successive `vote(1, +1)` calls by user 1 move the post's points from `-1`
to `1`, a total change of `+2`, not `+1`. -/
theorem vote_repeat_total_cex :
    (normalizedValues cexRepeat.upvotes ∧ uniqueKeys cexRepeat.upvotes ∧ pointsInv cexRepeat) ∧
      (vote (vote cexRepeat 1 1 1).1 1 1 1).1.posts.map (fun p => p.points) = [1] ∧
      cexRepeat.posts.map (fun p => p.points) = [-1] ∧ ¬((1 : Int) = -1 + 1) := by
  decide

/-- C4 (amended): a repeat vote in the same direction is a no-op — if the
caller's upvote row already carries the normalized value, `vote` returns the
state unchanged — and consequently two successive `vote(postId, +1)` calls
by a user with no prior vote on the post change its points by exactly `+1`
in total. -/
theorem vote_repeat_idempotent :
    (∀ (st : VoteState) (uid pid : Nat) (value : Int) (uv : UpvoteRow),
      findUpvote st.upvotes uid pid = some uv → uv.value = realValueOf value →
      vote st uid pid value = (st, true)) ∧
    (∀ (st : VoteState) (uid pid : Nat) (p : PostRow),
      findUpvote st.upvotes uid pid = none → p ∈ st.posts → p.id = pid →
      { p with points := p.points + 1 } ∈ (vote (vote st uid pid 1).1 uid pid 1).1.posts) := by
  constructor
  · intro st uid pid value uv hf hval
    have hne : (uv.value != realValueOf value) = false := by simp [hval]
    simp [vote, hf, hne]
  · intro st uid pid p hnone hp hpid
    have hrv1 : realValueOf 1 = 1 := by decide
    have h1 : (vote st uid pid 1).1
        = { posts := bumpPoints st.posts pid 1,
            upvotes := st.upvotes ++ [{ userId := uid, postId := pid, value := 1 }] } := by
      simp [vote, hnone, hrv1]
    rw [h1]
    have hf2 : findUpvote (st.upvotes ++ [{ userId := uid, postId := pid, value := 1 }]) uid pid
        = some { userId := uid, postId := pid, value := 1 } :=
      findUpvote_append_self st.upvotes uid pid 1 hnone
    have hne2 : (({ userId := uid, postId := pid, value := 1 } : UpvoteRow).value
        != realValueOf 1) = false := by
      simp [hrv1]
    simp only [vote, hf2, hne2, Bool.false_eq_true, if_false]
    exact List.mem_map.mpr ⟨p, hp, by simp [hpid]⟩

/-- A one-post state in which user 1 already upvoted post 1; used to
instantiate both parts of the amended C4. -/
def wRepeatA : VoteState :=
  { posts := [{ id := 1, title := "a", text := "b", points := 1, creatorId := 2, createdAt := 3 }],
    upvotes := [{ userId := 1, postId := 1, value := 1 }] }

/-- The single post of `wRepeatB`. -/
def wRepeatBpost : PostRow :=
  { id := 1, title := "a", text := "b", points := 2, creatorId := 2, createdAt := 3 }

/-- A state in which user 1 has not voted on post 1 yet. -/
def wRepeatB : VoteState := { posts := [wRepeatBpost], upvotes := [{ userId := 3, postId := 1, value := 1 }] }

/-- Witness for the amended C4 at concrete states. -/
theorem vote_repeat_idempotent_witness :
    (findUpvote wRepeatA.upvotes 1 1 = some { userId := 1, postId := 1, value := 1 } ∧
      vote wRepeatA 1 1 1 = (wRepeatA, true)) ∧
    (findUpvote wRepeatB.upvotes 1 1 = none ∧ wRepeatBpost ∈ wRepeatB.posts ∧
      { wRepeatBpost with points := wRepeatBpost.points + 1 }
        ∈ (vote (vote wRepeatB 1 1 1).1 1 1 1).1.posts) :=
  ⟨⟨by decide,
    vote_repeat_idempotent.1 wRepeatA 1 1 1 { userId := 1, postId := 1, value := 1 }
      (by decide) (by decide)⟩,
   ⟨by decide, by decide,
    vote_repeat_idempotent.2 wRepeatB 1 1 wRepeatBpost (by decide) (by decide) (by decide)⟩⟩

/-- A fresh state: one post with 0 points and no votes. -/
def cexFlip : VoteState :=
  { posts := [{ id := 1, title := "a", text := "b", points := 0, creatorId := 2, createdAt := 3 }],
    upvotes := [] }

/-- C5 counterexample: starting from a state in which user 1 has not voted
on post 1 and the post has 0 points, `vote(1, +1)` followed by
`vote(1, -1)` leaves the post at `-1` points — a change of `-1` relative to
before the first vote, not `-2`. -/
theorem vote_flip_sequence_cex :
    (normalizedValues cexFlip.upvotes ∧ uniqueKeys cexFlip.upvotes ∧ pointsInv cexFlip) ∧
      findUpvote cexFlip.upvotes 1 1 = none ∧
      (vote (vote cexFlip 1 1 1).1 1 1 (-1)).1.posts.map (fun p => p.points) = [-1] ∧
      cexFlip.posts.map (fun p => p.points) = [0] ∧ ¬((-1 : Int) = 0 - 2) := by
  decide

/-- C5 (amended): when the caller's upvote row carries a value different
from the normalized new value, `vote` updates that row to the new value and
adjusts the post's points by exactly `2 * value` in the same transaction;
consequently `vote(postId, +1)` followed by `vote(postId, -1)` by a user
with no prior vote on the post changes its points by exactly `-1` relative
to before the first vote (the second call alone adjusts them by `-2`). -/
theorem vote_flip_adjusts_two :
    (∀ (st : VoteState) (uid pid : Nat) (value : Int) (uv : UpvoteRow) (p : PostRow),
      findUpvote st.upvotes uid pid = some uv → uv.value ≠ realValueOf value →
      p ∈ st.posts → p.id = pid →
      findUpvote (vote st uid pid value).1.upvotes uid pid
          = some { uv with value := realValueOf value } ∧
        { p with points := p.points + 2 * realValueOf value } ∈ (vote st uid pid value).1.posts) ∧
    (∀ (st : VoteState) (uid pid : Nat) (p : PostRow),
      findUpvote st.upvotes uid pid = none → p ∈ st.posts → p.id = pid →
      { p with points := p.points - 1 } ∈ (vote (vote st uid pid 1).1 uid pid (-1)).1.posts) := by
  constructor
  · intro st uid pid value uv p hf hne hp hpid
    have hne' : (uv.value != realValueOf value) = true := by simpa using hne
    constructor
    · simp only [vote, hf, hne', if_true]
      rw [findUpvote_setUpvoteValue, hf]
      rfl
    · simp only [vote, hf, hne', if_true]
      exact List.mem_map.mpr ⟨p, hp, by simp [hpid]⟩
  · intro st uid pid p hnone hp hpid
    have hrv1 : realValueOf 1 = 1 := by decide
    have hrvm : realValueOf (-1) = -1 := by decide
    have h1 : (vote st uid pid 1).1
        = { posts := bumpPoints st.posts pid 1,
            upvotes := st.upvotes ++ [{ userId := uid, postId := pid, value := 1 }] } := by
      simp [vote, hnone, hrv1]
    rw [h1]
    have hf2 : findUpvote (st.upvotes ++ [{ userId := uid, postId := pid, value := 1 }]) uid pid
        = some { userId := uid, postId := pid, value := 1 } :=
      findUpvote_append_self st.upvotes uid pid 1 hnone
    have hne2 : (({ userId := uid, postId := pid, value := 1 } : UpvoteRow).value
        != realValueOf (-1)) = true := by
      simp [hrvm]
    simp only [vote, hf2, hne2, if_true, hrvm]
    have hm1 : { p with points := p.points + 1 } ∈ bumpPoints st.posts pid 1 :=
      List.mem_map.mpr ⟨p, hp, by simp [hpid]⟩
    have hm2 : { p with points := p.points + 1 + 2 * (-1 : Int) }
        ∈ bumpPoints (bumpPoints st.posts pid 1) pid (2 * (-1)) :=
      List.mem_map.mpr ⟨{ p with points := p.points + 1 }, hm1, by simp [hpid]⟩
    have harith : p.points + 1 + 2 * (-1 : Int) = p.points - 1 := by ring
    exact harith ▸ hm2

/-- A state in which user 1 holds a `-1` vote on post 1, consistent with the
points invariant. -/
def wFlipA : VoteState :=
  { posts := [{ id := 1, title := "a", text := "b", points := -1, creatorId := 2, createdAt := 3 }],
    upvotes := [{ userId := 1, postId := 1, value := -1 }] }

/-- The single post of `wFlipB`. -/
def wFlipBpost : PostRow :=
  { id := 1, title := "a", text := "b", points := 5, creatorId := 2, createdAt := 3 }

/-- A state in which user 1 has not voted on post 1 yet. -/
def wFlipB : VoteState := { posts := [wFlipBpost], upvotes := [] }

/-- Witness for the amended C5 at concrete states. -/
theorem vote_flip_adjusts_two_witness :
    (findUpvote wFlipA.upvotes 1 1 = some { userId := 1, postId := 1, value := -1 } ∧
      findUpvote (vote wFlipA 1 1 1).1.upvotes 1 1 = some { userId := 1, postId := 1, value := 1 } ∧
      { id := 1, title := "a", text := "b", points := (1 : Int), creatorId := 2, createdAt := 3 }
        ∈ (vote wFlipA 1 1 1).1.posts) ∧
    (findUpvote wFlipB.upvotes 1 1 = none ∧
      { wFlipBpost with points := wFlipBpost.points - 1 }
        ∈ (vote (vote wFlipB 1 1 1).1 1 1 (-1)).1.posts) := by
  refine ⟨⟨by decide, ?_⟩, ⟨by decide, ?_⟩⟩
  · have h := vote_flip_adjusts_two.1 wFlipA 1 1 1 { userId := 1, postId := 1, value := -1 }
      { id := 1, title := "a", text := "b", points := -1, creatorId := 2, createdAt := 3 }
      (by decide) (by decide) (by decide) (by decide)
    exact ⟨h.1, h.2⟩
  · exact vote_flip_adjusts_two.2 wFlipB 1 1 wFlipBpost (by decide) (by decide) (by decide)

/-- The `{field, message}` shape returned for validation and business-rule
failures. -/
structure FieldError where
  field : String
  message : String
  deriving Repr, DecidableEq

/-- `UserResponse`: a list of field errors or a user, never both. -/
structure UserResponse where
  errors : Option (List FieldError)
  user : Option UserRow
  deriving Repr, DecidableEq

/-- State touched by the account resolvers: the `user` table, the redis
cache (reset-token key to stored user id; redis stringifies the id and
`changePassword` parses it back with `parseInt`, an identity round trip
that the embedding models away), and the session's user id. -/
structure AuthState where
  users : List UserRow
  cache : List (String × Nat)
  sessionUserId : Option Nat
  deriving Repr, DecidableEq

/-- `redis.get(key)`. -/
def redisGet (cache : List (String × Nat)) (key : String) : Option Nat :=
  (cache.find? fun e => e.1 == key).map fun e => e.2

/-- `redis.set(key, value, 'ex', ...)`; the TTL is real time, outside the
embedding. -/
def redisSet (cache : List (String × Nat)) (key : String) (v : Nat) : List (String × Nat) :=
  (key, v) :: cache

/-- `redis.del(key)`. -/
def redisDel (cache : List (String × Nat)) (key : String) : List (String × Nat) :=
  cache.filter fun e => e.1 != key

/-- Modelled from the spec: `FORGET_PASSWORD_PREFIX`, the fixed cache-key
constant the MikroORM resolvers import from `constants.ts` (a file not
under src/).  The concrete string is irrelevant to every claim; only its
consistent use within the version matters. -/
def forgetKeyOf (token : String) : String :=
  "forget-password:" ++ token

/-- Modelled from the spec: `FORGOT_PASSWORD_PREFIX`, the fixed cache-key
constant the TypeORM resolvers import from `constants.ts` (a file not
under src/). -/
def forgotKeyOf (token : String) : String :=
  "forgot-password:" ++ token

/-- `User.findOne(id)` / `em.findOne(User, { id })`. -/
def findUserById (users : List UserRow) (uid : Nat) : Option UserRow :=
  users.find? fun u => u.id == uid

/-- `User.update({ id }, { password })` / `em.persistAndFlush` of the
mutated entity. -/
def setPassword (users : List UserRow) (uid : Nat) (hashed : String) : List UserRow :=
  users.map fun u => if u.id == uid then { u with password := hashed } else u

/-- `UserResolver.changePassword`, MikroORM version (no `redis.del`): length
check, token lookup, user lookup, hash-and-persist, log in.  `hash` is the
external argon2 collaborator. -/
def changePasswordMikro (hash : String → String) (st : AuthState)
    (token newPassword : String) : UserResponse × AuthState :=
  if newPassword.length ≤ 5 then
    ({ errors := some [{ field := "newPassword", message := "length must be greater than 5" }],
       user := none }, st)
  else
    match redisGet st.cache (forgetKeyOf token) with
    | none =>
        ({ errors := some [{ field := "token", message := "token expired" }], user := none }, st)
    | some userId =>
      match findUserById st.users userId with
      | none =>
          ({ errors := some [{ field := "token", message := "user no longer exists" }],
             user := none }, st)
      | some user =>
          ({ errors := none, user := some { user with password := hash newPassword } },
           { st with users := setPassword st.users userId (hash newPassword),
                     sessionUserId := some user.id })

/-- `UserResolver.changePassword`, TypeORM version: same flow, but the key
is deleted from redis after the password update, and the returned user is
the entity as fetched (the `User.update` call does not mutate it). -/
def changePasswordTypeorm (hash : String → String) (st : AuthState)
    (token newPassword : String) : UserResponse × AuthState :=
  if newPassword.length ≤ 5 then
    ({ errors := some [{ field := "newPassword", message := "length must be greater than 5" }],
       user := none }, st)
  else
    match redisGet st.cache (forgotKeyOf token) with
    | none =>
        ({ errors := some [{ field := "token", message := "token expired" }], user := none }, st)
    | some userIdNum =>
      match findUserById st.users userIdNum with
      | none =>
          ({ errors := some [{ field := "token", message := "user no longer exists" }],
             user := none }, st)
      | some user =>
          ({ errors := none, user := some user },
           { users := setPassword st.users userIdNum (hash newPassword),
             cache := redisDel st.cache (forgotKeyOf token),
             sessionUserId := some user.id })

theorem redisGet_redisDel (c : List (String × Nat)) (k : String) :
    redisGet (redisDel c k) k = none := by
  induction c with
  | nil => rfl
  | cons e c ih =>
    cases he : (e.1 == k) with
    | true =>
      have hne : (e.1 != k) = false := by simp [bne, he]
      simp only [redisDel, List.filter_cons, hne, Bool.false_eq_true, if_false] at ih ⊢
      exact ih
    | false =>
      have hne : (e.1 != k) = true := by simp [bne, he]
      simp only [redisDel, List.filter_cons, hne, if_true] at ih ⊢
      simp only [redisGet, List.find?_cons, he] at ih ⊢
      exact ih

/-- The single user and cached token used in the C2 counterexample. -/
def cexAuth : AuthState :=
  { users := [{ id := 1, username := "u", email := "e@x.com", password := "old" }],
    cache := [(forgetKeyOf "t", 1)], sessionUserId := none }

/-- A concrete stand-in for the external argon2 hash. -/
def hashW : String → String := fun s => s ++ "#h"

/-- C2 counterexample: in the MikroORM version of `changePassword` a
successful call leaves the reset-token entry in the cache, and a second
call with the same token succeeds again instead of returning a field
error. -/
theorem changePassword_reuse_cex :
    (changePasswordMikro hashW cexAuth "t" "secret1").1.errors = none ∧
    (changePasswordMikro hashW cexAuth "t" "secret1").2.cache = cexAuth.cache ∧
    (changePasswordMikro hashW
        (changePasswordMikro hashW cexAuth "t" "secret1").2 "t" "secret1").1.errors = none := by
  decide

/-- C2 (amended): in the TypeORM version of `changePassword`, a successful
call (new password long enough, token in the cache, referenced user exists)
deletes the reset-token entry from the cache, so the token is single-use:
a second `changePassword` with the same token returns the token-expired
field error.  (The MikroORM version never deletes the token.) -/
theorem changePasswordTypeorm_token_single_use
    (hash : String → String) (st : AuthState) (token newPassword : String)
    (uid : Nat) (user : UserRow)
    (hlen : ¬ newPassword.length ≤ 5)
    (hget : redisGet st.cache (forgotKeyOf token) = some uid)
    (huser : findUserById st.users uid = some user) :
    (changePasswordTypeorm hash st token newPassword).1.errors = none ∧
    redisGet (changePasswordTypeorm hash st token newPassword).2.cache (forgotKeyOf token)
      = none ∧
    (changePasswordTypeorm hash
        (changePasswordTypeorm hash st token newPassword).2 token newPassword).1.errors
      = some [{ field := "token", message := "token expired" }] := by
  have hred : changePasswordTypeorm hash st token newPassword
      = ({ errors := none, user := some user },
         { users := setPassword st.users uid (hash newPassword),
           cache := redisDel st.cache (forgotKeyOf token),
           sessionUserId := some user.id }) := by
    simp [changePasswordTypeorm, hlen, hget, huser]
  rw [hred]
  refine ⟨rfl, redisGet_redisDel st.cache (forgotKeyOf token), ?_⟩
  have hget2 : redisGet (redisDel st.cache (forgotKeyOf token)) (forgotKeyOf token) = none :=
    redisGet_redisDel _ _
  simp [changePasswordTypeorm, hlen, hget2]

/-- State for the C2 witness: user 1 exists and a TypeORM-prefixed token for
them is cached. -/
def wAuth : AuthState :=
  { users := [{ id := 1, username := "u", email := "e@x.com", password := "old" }],
    cache := [(forgotKeyOf "t", 1)], sessionUserId := none }

/-- Witness for the amended C2 at a concrete state. -/
theorem changePasswordTypeorm_token_single_use_witness :
    (¬ ("secret1".length ≤ 5) ∧ redisGet wAuth.cache (forgotKeyOf "t") = some 1 ∧
      findUserById wAuth.users 1
        = some { id := 1, username := "u", email := "e@x.com", password := "old" }) ∧
    (changePasswordTypeorm hashW wAuth "t" "secret1").1.errors = none ∧
    redisGet (changePasswordTypeorm hashW wAuth "t" "secret1").2.cache (forgotKeyOf "t") = none ∧
    (changePasswordTypeorm hashW
        (changePasswordTypeorm hashW wAuth "t" "secret1").2 "t" "secret1").1.errors
      = some [{ field := "token", message := "token expired" }] :=
  ⟨⟨by decide, by decide, by decide⟩,
   changePasswordTypeorm_token_single_use hashW wAuth "t" "secret1" 1
     { id := 1, username := "u", email := "e@x.com", password := "old" }
     (by decide) (by decide) (by decide)⟩

/-- A database error as surfaced by the driver: the SQLSTATE `code` and the
constraint-violation `detail` text. -/
structure DBError where
  code : String
  detail : String
  deriving Repr, DecidableEq

/-- Whether `s` begins with the characters `pat`. -/
def charsLead : List Char → List Char → Bool
  | [], _ => true
  | _ :: _, [] => false
  | p :: ps, c :: cs => p == c && charsLead ps cs

/-- Whether `pat` occurs somewhere in `s`. -/
def charsContain (pat : List Char) : List Char → Bool
  | [] => pat.isEmpty
  | c :: rest => charsLead pat (c :: rest) || charsContain pat rest

/-- `s.includes(pat)` of the error-detail inspection. -/
def strContains (s pat : String) : Bool :=
  charsContain pat.data s.data

/-- `UserResolver.register`, MikroORM version.  `validateRegister` (a utils
file not under src/) and the knex insert are external collaborators whose
outcomes are arguments: `validation` is the error list it returns (`none`
when validation passes) and `insertOutcome` is the inserted row or the
database error.  A non-`23505` error is swallowed by the catch block, after
which `user.id` is read from an undefined `user` and throws — modelled as
`Except.error ()`.  Only the `23505` code is inspected; the detail text is
ignored and the error always blames `username`. -/
def registerMikro (validation : Option (List FieldError))
    (insertOutcome : Except DBError UserRow) (st : AuthState) :
    Except Unit (UserResponse × AuthState) :=
  match validation with
  | some errs => .ok ({ errors := some errs, user := none }, st)
  | none =>
    match insertOutcome with
    | .ok user =>
        .ok ({ errors := none, user := some user },
             { st with users := st.users ++ [user], sessionUserId := some user.id })
    | .error err =>
      if err.code == "23505" then
        .ok ({ errors := some [{ field := "username", message := "username already taken" }],
               user := none }, st)
      else
        .error ()

/-- `UserResolver.register`, TypeORM version: as the MikroORM one, but on a
`23505` error the constraint-violation detail is inspected and the field
error blames `email` when the detail mentions it, `username` otherwise. -/
def registerTypeorm (validation : Option (List FieldError))
    (insertOutcome : Except DBError UserRow) (st : AuthState) :
    Except Unit (UserResponse × AuthState) :=
  match validation with
  | some errs => .ok ({ errors := some errs, user := none }, st)
  | none =>
    match insertOutcome with
    | .ok user =>
        .ok ({ errors := none, user := some user },
             { st with users := st.users ++ [user], sessionUserId := some user.id })
    | .error err =>
      if err.code == "23505" then
        if strContains err.detail "email" then
          .ok ({ errors := some [{ field := "email", message := "email already exists" }],
                 user := none }, st)
        else
          .ok ({ errors := some [{ field := "username", message := "username already taken" }],
                 user := none }, st)
      else
        .error ()

/-- An empty database state for the register theorems. -/
def emptyAuth : AuthState := { users := [], cache := [], sessionUserId := none }

deriving instance DecidableEq for Except

/-- C3 counterexample: in the MikroORM version of `register`, a `23505`
unique-constraint violation whose detail names the `email` column is still
reported as a `username` field error. -/
theorem register_email_collision_cex :
    registerMikro none
        (.error { code := "23505", detail := "Key (email)=(a@b.c) already exists." }) emptyAuth
      = .ok ({ errors := some [{ field := "username", message := "username already taken" }],
               user := none }, emptyAuth) ∧
    strContains "Key (email)=(a@b.c) already exists." "email" = true := by
  decide

/-- C3 (amended): when input validation passes and the insert fails with
database error code 23505, the TypeORM version of `register` returns a
single field error blaming `email` when the constraint-violation detail
mentions email and `username` otherwise, creates no user row (the state is
returned unchanged), and returns no other error shape; the MikroORM
version returns the `username` field error regardless of the detail. -/
theorem registerTypeorm_unique_violation (err : DBError) (st : AuthState)
    (hcode : err.code = "23505") :
    registerTypeorm none (.error err) st
      = .ok ({ errors := some [if strContains err.detail "email" = true
                  then { field := "email", message := "email already exists" }
                  else { field := "username", message := "username already taken" }],
               user := none }, st) ∧
    registerMikro none (.error err) st
      = .ok ({ errors := some [{ field := "username", message := "username already taken" }],
               user := none }, st) := by
  have hc : (err.code == "23505") = true := by simp [hcode]
  constructor
  · by_cases hd : strContains err.detail "email" = true
    · simp [registerTypeorm, hc, hd]
    · simp only [Bool.not_eq_true] at hd
      simp [registerTypeorm, hc, hd]
  · simp [registerMikro, hc]

/-- Witness for the amended C3 at a concrete email-collision error. -/
theorem registerTypeorm_unique_violation_witness :
    ((({ code := "23505", detail := "Key (email)=(a@b.c) already exists." } : DBError).code
        = "23505") ∧
      strContains "Key (email)=(a@b.c) already exists." "email" = true) ∧
    registerTypeorm none
        (.error { code := "23505", detail := "Key (email)=(a@b.c) already exists." }) emptyAuth
      = .ok ({ errors := some [{ field := "email", message := "email already exists" }],
               user := none }, emptyAuth) :=
  ⟨⟨by decide, by decide⟩, by
    have h := (registerTypeorm_unique_violation
      { code := "23505", detail := "Key (email)=(a@b.c) already exists." } emptyAuth rfl).1
    simpa using h⟩

/-- The email sent by `sendEmail`. -/
structure SentEmail where
  recipient : String
  html : String
  deriving Repr, DecidableEq

/-- The reset link sent by `forgotPassword`. -/
def resetEmailHtml (token : String) : String :=
  "<a href=\"http://localhost:3000/change-password/" ++ token
    ++ "\">reset password</a>"

/-- `UserResolver.forgotPassword`, MikroORM version.  The uuid `token` is
an external random collaborator passed as an argument.  Returns the
resolved Bool, the successor state and the list of emails sent. -/
def forgotPasswordMikro (st : AuthState) (email token : String) :
    Bool × AuthState × List SentEmail :=
  match st.users.find? (fun u => u.email == email) with
  | none => (true, st, [])
  | some user =>
      (true, { st with cache := redisSet st.cache (forgetKeyOf token) user.id },
       [{ recipient := email, html := resetEmailHtml token }])

/-- `UserResolver.forgotPassword`, TypeORM version — identical logic with
its own key constant. -/
def forgotPasswordTypeorm (st : AuthState) (email token : String) :
    Bool × AuthState × List SentEmail :=
  match st.users.find? (fun u => u.email == email) with
  | none => (true, st, [])
  | some user =>
      (true, { st with cache := redisSet st.cache (forgotKeyOf token) user.id },
       [{ recipient := email, html := resetEmailHtml token }])

/-- C8: `forgotPassword` resolves `true` for every email in both versions,
so the return value carries no information about account existence; and
when no user has the given email, the state is unchanged (no token stored)
and no email is sent. -/
theorem forgotPassword_no_enumeration :
    (∀ (st : AuthState) (email token : String),
      (forgotPasswordMikro st email token).1 = true ∧
      (forgotPasswordTypeorm st email token).1 = true) ∧
    (∀ (st : AuthState) (email token : String),
      st.users.find? (fun u => u.email == email) = none →
      (forgotPasswordMikro st email token).2.1 = st ∧
      (forgotPasswordMikro st email token).2.2 = [] ∧
      (forgotPasswordTypeorm st email token).2.1 = st ∧
      (forgotPasswordTypeorm st email token).2.2 = []) := by
  constructor
  · intro st email token
    refine ⟨?_, ?_⟩
    · unfold forgotPasswordMikro
      cases st.users.find? (fun u => u.email == email) <;> rfl
    · unfold forgotPasswordTypeorm
      cases st.users.find? (fun u => u.email == email) <;> rfl
  · intro st email token hnone
    unfold forgotPasswordMikro forgotPasswordTypeorm
    rw [hnone]
    exact ⟨rfl, rfl, rfl, rfl⟩

/-- Witness for C8 at a concrete state with no matching user. -/
theorem forgotPassword_no_enumeration_witness :
    (wAuth.users.find? (fun u => u.email == "nobody@x.com") = none) ∧
    (forgotPasswordMikro wAuth "nobody@x.com" "t").1 = true ∧
    (forgotPasswordMikro wAuth "nobody@x.com" "t").2.1 = wAuth ∧
    (forgotPasswordMikro wAuth "nobody@x.com" "t").2.2 = [] ∧
    (forgotPasswordTypeorm wAuth "nobody@x.com" "t").2.1 = wAuth ∧
    (forgotPasswordTypeorm wAuth "nobody@x.com" "t").2.2 = [] :=
  ⟨by decide,
   (forgotPassword_no_enumeration.1 wAuth "nobody@x.com" "t").1,
   (forgotPassword_no_enumeration.2 wAuth "nobody@x.com" "t" (by decide)).1,
   (forgotPassword_no_enumeration.2 wAuth "nobody@x.com" "t" (by decide)).2.1,
   (forgotPassword_no_enumeration.2 wAuth "nobody@x.com" "t" (by decide)).2.2.1,
   (forgotPassword_no_enumeration.2 wAuth "nobody@x.com" "t" (by decide)).2.2.2⟩

/-- The `User.email` field resolver of the TypeORM `UserResolver`: the
session's user id (possibly absent) is compared with the resolved user's
id. -/
def emailResolver (sessionUserId : Option Nat) (user : UserRow) : String :=
  if sessionUserId = some user.id then user.email else ""

/-- C9: the `User.email` field resolver returns the stored email exactly
for the user's own session; every other caller — a different user or an
unauthenticated one — receives the empty string. -/
theorem email_only_for_self :
    (∀ (user : UserRow), emailResolver (some user.id) user = user.email) ∧
    (∀ (s : Option Nat) (user : UserRow), s ≠ some user.id → emailResolver s user = "") := by
  constructor
  · intro user
    simp [emailResolver]
  · intro s user hs
    simp [emailResolver, hs]

/-- Witness for C9: user 7 sees their own email; user 8 and the
unauthenticated session see the empty string. -/
theorem email_only_for_self_witness :
    emailResolver (some 7) { id := 7, username := "u", email := "e@x.com", password := "p" }
      = "e@x.com" ∧
    emailResolver (some 8) { id := 7, username := "u", email := "e@x.com", password := "p" }
      = "" ∧
    emailResolver none { id := 7, username := "u", email := "e@x.com", password := "p" } = "" :=
  ⟨email_only_for_self.1 { id := 7, username := "u", email := "e@x.com", password := "p" },
   email_only_for_self.2 (some 8)
     { id := 7, username := "u", email := "e@x.com", password := "p" } (by decide),
   email_only_for_self.2 none
     { id := 7, username := "u", email := "e@x.com", password := "p" } (by decide)⟩

/-- A row of the feed query: the post columns, the joined
`json_build_object` creator, and the per-caller `voteStatus` subquery. -/
structure FeedPost where
  post : PostRow
  createdBy : Option UserRow
  voteStatus : Option Int
  deriving Repr, DecidableEq

/-- The `PaginatedPosts` object type. -/
structure PaginatedPosts where
  posts : List FeedPost
  hasMore : Bool
  deriving Repr, DecidableEq

/-- `const realLimit = Math.min(50, limit)`. -/
def realLimitOf (limit : Nat) : Nat := min 50 limit

/-- `realLimitPlusOne`, the value passed to the SQL `limit $1`. -/
def queriedLimitOf (limit : Nat) : Nat := realLimitOf limit + 1

/-- The `order by p."createdAt" DESC` ordering. -/
def newerFirst (a b : PostRow) : Prop := b.createdAt ≤ a.createdAt

instance : DecidableRel newerFirst := fun a b => Nat.decLe b.createdAt a.createdAt

instance : IsTotal PostRow newerFirst := ⟨fun a b => le_total b.createdAt a.createdAt⟩

instance : IsTrans PostRow newerFirst := ⟨fun _ _ _ hab hbc => le_trans hbc hab⟩

/-- One output row of the feed query: the `json_build_object` creator from
the inner join and the scalar subquery
`(select value from upvote where "userId" = $2 and "postId" = p.id)` when a
session user id is present, SQL `null` otherwise. -/
def feedRow (users : List UserRow) (upvotes : List UpvoteRow) (sessionUserId : Option Nat)
    (p : PostRow) : FeedPost :=
  { post := p,
    createdBy := users.find? fun u => u.id == p.creatorId,
    voteStatus :=
      match sessionUserId with
      | none => none
      | some uid => (findUpvote upvotes uid p.id).map fun v => v.value }

/-- The raw SQL of `PostResolver.posts`: inner join of `post` with
`public.user` on the creator, the optional `p."createdAt" < $cursor`
restriction, descending `createdAt` order, and `limit $1`. -/
def sqlPosts (users : List UserRow) (upvotes : List UpvoteRow) (db : List PostRow)
    (sessionUserId : Option Nat) (cursor : Option Nat) (queryLimit : Nat) : List FeedPost :=
  let joined := db.filter fun p => users.any fun u => u.id == p.creatorId
  let restricted :=
    match cursor with
    | some c => joined.filter fun p => decide (p.createdAt < c)
    | none => joined
  ((List.insertionSort newerFirst restricted).take queryLimit).map
    (feedRow users upvotes sessionUserId)

/-- `PostResolver.posts(limit, cursor)`: fetch `realLimitPlusOne` rows,
truncate the response to `realLimit`, and report `hasMore` when the query
filled the full `realLimitPlusOne`. -/
def postsFeed (users : List UserRow) (upvotes : List UpvoteRow) (db : List PostRow)
    (limit : Nat) (cursor : Option Nat) (sessionUserId : Option Nat) : PaginatedPosts :=
  let rows := sqlPosts users upvotes db sessionUserId cursor (queriedLimitOf limit)
  { posts := rows.take (realLimitOf limit),
    hasMore := rows.length == queriedLimitOf limit }

/-- C6 counterexample: at `limit = 51` the code passes `min(50, 51) + 1 =
51` to the SQL `limit`, not `limit + 1 = 52`. -/
theorem posts_query_limit_cex :
    queriedLimitOf 51 = 51 ∧ ¬(queriedLimitOf 51 = 51 + 1) := by
  decide

/-- C6 (amended): `posts(limit, cursor)` uses an effective limit of
`min(50, limit)`, queries effective-limit + 1 rows, returns at most
effective-limit posts, and reports `hasMore = true` exactly when the query
returned effective-limit + 1 rows. -/
theorem posts_limit_clamped (users : List UserRow) (upvotes : List UpvoteRow)
    (db : List PostRow) (limit : Nat) (cursor : Option Nat) (sessionUserId : Option Nat) :
    realLimitOf limit = min 50 limit ∧
    queriedLimitOf limit = realLimitOf limit + 1 ∧
    (postsFeed users upvotes db limit cursor sessionUserId).posts.length ≤ realLimitOf limit ∧
    ((postsFeed users upvotes db limit cursor sessionUserId).hasMore = true ↔
      (sqlPosts users upvotes db sessionUserId cursor (queriedLimitOf limit)).length
        = realLimitOf limit + 1) := by
  refine ⟨rfl, rfl, ?_, ?_⟩
  · simp only [postsFeed, List.length_take]
    exact inf_le_left
  · simp [postsFeed, queriedLimitOf]

/-- Witness for the amended C6 at concrete arguments. -/
theorem posts_limit_clamped_witness :
    realLimitOf 1 = min 50 1 ∧
    queriedLimitOf 1 = realLimitOf 1 + 1 ∧
    (postsFeed [] [] [] 1 none none).posts.length ≤ realLimitOf 1 ∧
    ((postsFeed [] [] [] 1 none none).hasMore = true ↔
      (sqlPosts [] [] [] none none (queriedLimitOf 1)).length = realLimitOf 1 + 1) :=
  posts_limit_clamped [] [] [] 1 none none

/-- C7: with a cursor, the feed returns only posts strictly older than the
cursor timestamp; the returned posts are ordered by `createdAt` descending;
and without a cursor no `createdAt` restriction is applied — every joined
post appears whenever the joined table fits within the effective limit. -/
theorem posts_cursor_keyset :
    (∀ (users : List UserRow) (upvotes : List UpvoteRow) (db : List PostRow)
        (limit c : Nat) (sid : Option Nat) (fp : FeedPost),
      fp ∈ (postsFeed users upvotes db limit (some c) sid).posts →
      fp.post.createdAt < c) ∧
    (∀ (users : List UserRow) (upvotes : List UpvoteRow) (db : List PostRow)
        (limit : Nat) (cursor : Option Nat) (sid : Option Nat),
      ((postsFeed users upvotes db limit cursor sid).posts).Pairwise
        (fun a b => b.post.createdAt ≤ a.post.createdAt)) ∧
    (∀ (users : List UserRow) (upvotes : List UpvoteRow) (db : List PostRow)
        (limit : Nat) (sid : Option Nat) (p : PostRow),
      p ∈ db → (users.any fun u => u.id == p.creatorId) = true →
      (db.filter fun q => users.any fun u => u.id == q.creatorId).length ≤ realLimitOf limit →
      feedRow users upvotes sid p ∈ (postsFeed users upvotes db limit none sid).posts) := by
  refine ⟨?_, ?_, ?_⟩
  · intro users upvotes db limit c sid fp hfp
    simp only [postsFeed, sqlPosts] at hfp
    obtain ⟨q, hq, hqe⟩ := List.mem_map.mp (List.mem_of_mem_take hfp)
    have hq1 := List.mem_of_mem_take hq
    have hq2 := (List.perm_insertionSort newerFirst _).mem_iff.mp hq1
    have hlt : q.createdAt < c := of_decide_eq_true (List.mem_filter.mp hq2).2
    rw [← hqe]
    exact hlt
  · intro users upvotes db limit cursor sid
    simp only [postsFeed, sqlPosts]
    refine List.Pairwise.sublist (List.take_sublist _ _) ?_
    rw [List.pairwise_map]
    refine List.Pairwise.sublist (List.take_sublist _ _) ?_
    exact (List.sorted_insertionSort newerFirst _).imp fun h => h
  · intro users upvotes db limit sid p hp helig hlen
    simp only [postsFeed, sqlPosts]
    have hperm := List.perm_insertionSort newerFirst
      (db.filter fun q => users.any fun u => u.id == q.creatorId)
    have hlen' : (List.insertionSort newerFirst
        (db.filter fun q => users.any fun u => u.id == q.creatorId)).length
          ≤ realLimitOf limit := by
      rw [hperm.length_eq]
      exact hlen
    have h1 : (List.insertionSort newerFirst
        (db.filter fun q => users.any fun u => u.id == q.creatorId)).take (queriedLimitOf limit)
          = List.insertionSort newerFirst
              (db.filter fun q => users.any fun u => u.id == q.creatorId) :=
      List.take_of_length_le (le_trans hlen' (Nat.le_succ _))
    rw [h1]
    have h2 : ((List.insertionSort newerFirst
        (db.filter fun q => users.any fun u => u.id == q.creatorId)).map
          (feedRow users upvotes sid)).take (realLimitOf limit)
        = (List.insertionSort newerFirst
            (db.filter fun q => users.any fun u => u.id == q.creatorId)).map
              (feedRow users upvotes sid) :=
      List.take_of_length_le (by rw [List.length_map]; exact hlen')
    rw [h2]
    exact List.mem_map.mpr
      ⟨p, hperm.mem_iff.mpr (List.mem_filter.mpr ⟨hp, helig⟩), rfl⟩

/-- The creator used by the feed witnesses. -/
def wUsers : List UserRow := [{ id := 1, username := "u", email := "e@x.com", password := "p" }]

/-- An older post (timestamp 10). -/
def wPost10 : PostRow :=
  { id := 1, title := "a", text := "b", points := 0, creatorId := 1, createdAt := 10 }

/-- A newer post (timestamp 20). -/
def wPost20 : PostRow :=
  { id := 2, title := "c", text := "d", points := 0, creatorId := 1, createdAt := 20 }

/-- A two-post table for the feed witnesses. -/
def wDb : List PostRow := [wPost10, wPost20]

/-- The feed row of the older post for an unauthenticated caller. -/
def wFeedFp : FeedPost := feedRow wUsers [] none wPost10

/-- Witness for C7 at a concrete feed: cursor 15 returns exactly the older
post, ordering holds, and without a cursor the older post appears. -/
theorem posts_cursor_keyset_witness :
    (wFeedFp ∈ (postsFeed wUsers [] wDb 10 (some 15) none).posts ∧
      wFeedFp.post.createdAt < 15) ∧
    ((postsFeed wUsers [] wDb 10 (some 15) none).posts).Pairwise
      (fun a b => b.post.createdAt ≤ a.post.createdAt) ∧
    (wPost10 ∈ wDb ∧ (wUsers.any fun u => u.id == wPost10.creatorId) = true ∧
      (wDb.filter fun q => wUsers.any fun u => u.id == q.creatorId).length ≤ realLimitOf 10 ∧
      feedRow wUsers [] none wPost10 ∈ (postsFeed wUsers [] wDb 10 none none).posts) :=
  ⟨⟨by decide, posts_cursor_keyset.1 wUsers [] wDb 10 15 none wFeedFp (by decide)⟩,
   posts_cursor_keyset.2.1 wUsers [] wDb 10 (some 15) none,
   ⟨by decide, by decide, by decide,
    posts_cursor_keyset.2.2 wUsers [] wDb 10 none wPost10 (by decide) (by decide) (by decide)⟩⟩

/-- `PostResolver.updatePost(id, title)`: fetch the post, return `null`
when absent; otherwise write the new title (when defined) and return the
object as fetched before the write. -/
def updatePost (db : List PostRow) (id : Nat) (title : Option String) :
    Option PostRow × List PostRow :=
  match db.find? (fun p => p.id == id) with
  | none => (none, db)
  | some post =>
    match title with
    | some t => (some post, db.map fun p => if p.id == id then { p with title := t } else p)
    | none => (some post, db)

/-- C10: for an existing post and a defined title, `updatePost` writes the
new title to the row but returns the object as fetched before the update,
so the returned title is the pre-update one; for a missing id it returns
`null` and performs no write. -/
theorem updatePost_returns_stale :
    (∀ (db : List PostRow) (id : Nat) (t : String) (post : PostRow),
      db.find? (fun p => p.id == id) = some post →
      (updatePost db id (some t)).1 = some post ∧
      { post with title := t } ∈ (updatePost db id (some t)).2) ∧
    (∀ (db : List PostRow) (id : Nat) (title : Option String),
      db.find? (fun p => p.id == id) = none →
      updatePost db id title = (none, db)) := by
  constructor
  · intro db id t post hf
    have hmem := List.mem_of_find?_eq_some hf
    have hpid := List.find?_some hf
    constructor
    · simp [updatePost, hf]
    · simp only [updatePost, hf]
      exact List.mem_map.mpr ⟨post, hmem, by simp [hpid]⟩
  · intro db id title hf
    cases title <;> simp [updatePost, hf]

/-- Witness for C10: updating post 1's title returns the stale object and
writes the new title; updating a missing id 99 is a no-op returning
`null`. -/
theorem updatePost_returns_stale_witness :
    ([wPost10, wPost20].find? (fun p => p.id == 1) = some wPost10 ∧
      (updatePost [wPost10, wPost20] 1 (some "new")).1 = some wPost10 ∧
      { wPost10 with title := "new" } ∈ (updatePost [wPost10, wPost20] 1 (some "new")).2) ∧
    ([wPost10, wPost20].find? (fun p => p.id == 99) = none ∧
      updatePost [wPost10, wPost20] 99 (some "new") = (none, [wPost10, wPost20])) :=
  ⟨⟨by decide,
    (updatePost_returns_stale.1 [wPost10, wPost20] 1 "new" wPost10 (by decide)).1,
    (updatePost_returns_stale.1 [wPost10, wPost20] 1 "new" wPost10 (by decide)).2⟩,
   ⟨by decide, updatePost_returns_stale.2 [wPost10, wPost20] 99 (some "new") (by decide)⟩⟩

end Bluedit
